import Mathlib

/-!
Verification model of the `rest_trace_fuzzer` analysis scripts.

The definitions below are shallow embeddings of the Python sources:
* `scripts/compare_callinfo_graph.py` (edge-coverage loading and diffing),
* `scripts/test_process_visualize.py` (scenario-log extraction and trend series),
* `scripts/CoSREST/convert_sisp_to_dict.py` (valid-sample extraction).

JSON values are modelled structurally: a dictionary field that the code reads
with `d['f']` (raising `KeyError` when absent) becomes an `Option` field, a
field read with `d.get('f', default)` becomes an `Option` field read through
`Option.getD` (or is collapsed to the defaulted type when the raw value is
only ever observed through that default). File I/O and plotting are outside
the model; every function takes the already-decoded data.
-/

namespace RestTraceFuzzer

deriving instance DecidableEq for Except

/-! ## Data model of `compare_callinfo_graph.py` -/

/-- The six-field identity of a call edge, as built on lines 42-49 of
`compare_callinfo_graph.py`. -/
structure EdgeKey where
  source_service : String
  source_endpoint : String
  source_method : String
  target_service : String
  target_endpoint : String
  target_method : String
deriving DecidableEq

/-- The nested `simpleAPIMethod` object of a report.  Fields are `Option`
because the Python code reads them with `[...]` and would raise on absence. -/
structure SimpleAPIMethod where
  endpoint : Option String
  method : Option String
deriving DecidableEq

/-- A `source`/`target` descriptor of a raw edge record.  `extra` models any
additional descriptive JSON fields the script never reads but carries along
verbatim inside the edge detail it stores. -/
structure ServiceNode where
  serviceName : Option String
  simpleAPIMethod : Option SimpleAPIMethod
  extra : List (String × String)
deriving DecidableEq

/-- One raw entry of the report's `edges` list.  `hitCount` is read by the
code via `edge.get('hitCount', 0)`, `source`/`target` via `edge[...]`. -/
structure RawEdge where
  hitCount : Option Int
  source : Option ServiceNode
  target : Option ServiceNode
deriving DecidableEq

/-- The value stored in the snapshot for an edge: the full raw `source` and
`target` descriptors (`{"source": ..., "target": ...}` on lines 50-53). -/
abbrev EdgeDetail := ServiceNode × ServiceNode

/-- The snapshot built by `load_edges`: a Python dict, modelled as an
insertion-ordered association list with unique keys. -/
abbrev Snapshot := List (EdgeKey × EdgeDetail)

/-- A `KeyError` raised while reading an identity field of a covered record. -/
inductive FieldError where
  | fieldError
deriving DecidableEq

/-- Effective hit count of a raw record: `edge.get('hitCount', 0)`. -/
def hitOf (e : RawEdge) : Int :=
  e.hitCount.getD 0

/-- The six-tuple key together with the stored detail, as read on lines
42-53; `none` when any of the accessed fields is absent (Python `KeyError`).
The fields are read in the same order as the Python tuple construction. -/
def keyDetailOf (e : RawEdge) : Option (EdgeKey × EdgeDetail) := do
  let s ← e.source
  let ssn ← s.serviceName
  let sm ← s.simpleAPIMethod
  let sep ← sm.endpoint
  let sme ← sm.method
  let t ← e.target
  let tsn ← t.serviceName
  let tm ← t.simpleAPIMethod
  let tep ← tm.endpoint
  let tme ← tm.method
  pure (⟨ssn, sep, sme, tsn, tep, tme⟩, (s, t))

/-- Python dict assignment `covered_edges[edge_key] = detail`: replace the
value in place when the key is present (keys keep their first-insertion
position), otherwise append at the end. -/
def dictInsert (m : Snapshot) (k : EdgeKey) (v : EdgeDetail) : Snapshot :=
  if m.any (fun p => decide (p.1 = k)) then
    m.map (fun p => if p.1 = k then (k, v) else p)
  else
    m ++ [(k, v)]

/-- The loop of `load_edges` (lines 40-53): skip records whose effective hit
count is not positive; for the rest, read the identity fields (raising on a
missing one) and insert/overwrite the detail. -/
def loadGo : List RawEdge → Snapshot → Except FieldError Snapshot
  | [], acc => .ok acc
  | e :: rest, acc =>
    if 0 < hitOf e then
      match keyDetailOf e with
      | some (k, d) => loadGo rest (dictInsert acc k d)
      | none => .error .fieldError
    else
      loadGo rest acc

/-- `load_edges`, applied to the already-decoded `edges` list of a report. -/
def load_edges (es : List RawEdge) : Except FieldError Snapshot :=
  loadGo es []

/-- Python dict key listing, in insertion order. -/
def snapshotKeys (m : Snapshot) : List EdgeKey :=
  m.map Prod.fst

/-- Python dict lookup `m[k]` (as an `Option`; in `compare_coverage` it is
only applied to keys known to be present). -/
def lookupEdge (m : Snapshot) (k : EdgeKey) : Option EdgeDetail :=
  (m.find? (fun p => decide (p.1 = k))).map Prod.snd

/-- The membership content of `set(covered1.keys()) - set(covered2.keys())`,
listed in first-snapshot insertion order before the runtime's set iteration
order is applied. -/
def diffKeys (a b : Snapshot) : List EdgeKey :=
  (snapshotKeys a).filter (fun k => !decide (k ∈ snapshotKeys b))

/-- `compare_coverage` (lines 56-79).  CPython iterates the two difference
*sets*; the iteration order is determined by the interpreter's hash values,
not by the program, so it is modelled by the explicit parameter `setOrder`
(a valid run instantiates it with any permutation-producing function). -/
def compare_coverage (setOrder : List EdgeKey → List EdgeKey)
    (es1 es2 : List RawEdge) :
    Except FieldError (List EdgeDetail × List EdgeDetail) :=
  match load_edges es1, load_edges es2 with
  | .ok c1, .ok c2 =>
      .ok ((setOrder (diffKeys c1 c2)).filterMap (lookupEdge c1),
           (setOrder (diffKeys c2 c1)).filterMap (lookupEdge c2))
  | .error e, _ => .error e
  | .ok _, .error e => .error e

/-! ## Data model of `test_process_visualize.py`

The script extracts scenario records with one `re.search` of the pattern

  `Finish execute current test scenario .*?UUID: ([a-f0-9\-]+)` +
  `.*?Edge covered count: (\d+).*?Edge coverage: ([0-9\.]+)` +
  `.*?covered status code count: (\d+)`

compiled with `re.IGNORECASE`.  The matcher below implements exactly this
pattern's backtracking semantics over ASCII text: `search` tries every start
position from the left; each lazy gap `.*?` tries the shortest extension
first and never crosses a newline; each character-class `+` group is greedy.
The first group backtracks through shorter prefixes of its maximal run (its
class, extended by IGNORECASE, can start the following literal); the other
groups never need to, because no character of their classes can start the
literal that follows them, so they always capture their maximal run. -/

/-- Case-insensitive literal match: consume `lit` at the head of the input
(ASCII case folding, as both sides here are ASCII) and return the rest. -/
def litMatch : List Char → List Char → Option (List Char)
  | [], s => some s
  | _ :: _, [] => none
  | a :: as, c :: cs => if a.toLower = c.toLower then litMatch as cs else none

/-- The character class `[a-f0-9\-]` under `re.IGNORECASE`. -/
def uuidClass (c : Char) : Bool :=
  c.isDigit || c = '-' || ('a' ≤ c.toLower && c.toLower ≤ 'f')

/-- The character class `[0-9\.]`. -/
def numDotClass (c : Char) : Bool :=
  c.isDigit || c = '.'

/-- The four captured groups of one scenario line. -/
structure ScenGroups where
  uuid : List Char
  count : List Char
  coverage : List Char
  status : List Char
deriving DecidableEq

def statusLit : List Char := "covered status code count: ".data
def covLit : List Char := "edge coverage: ".data
def countLit : List Char := "edge covered count: ".data
def uuidLit : List Char := "uuid: ".data
def markerLit : List Char := "finish execute current test scenario ".data

/-- `.*?covered status code count: (\d+)` — lazy gap (never across a
newline), then the literal, then the greedy digit group (non-empty; being
last, it always captures its maximal run). -/
def tail4 : List Char → Option (List Char)
  | [] => none
  | c :: rest =>
    match litMatch statusLit (c :: rest) with
    | some r =>
      let run := r.takeWhile Char.isDigit
      if run.isEmpty then (if c = '\n' then none else tail4 rest)
      else some run
    | none => if c = '\n' then none else tail4 rest

/-- One attempt of `Edge coverage: ([0-9\.]+)` followed by the rest of the
pattern, at the current position. -/
def step3 (s : List Char) : Option (List Char × List Char) :=
  match litMatch covLit s with
  | some r =>
    let run := r.takeWhile numDotClass
    if run.isEmpty then none
    else (tail4 (r.drop run.length)).map (fun st => (run, st))
  | none => none

/-- `.*?Edge coverage: ([0-9\.]+)` then the rest of the pattern.  The group
captures its maximal run: the next literal starts with `c`, which is not in
`[0-9\.]`, so giving characters back could never help. -/
def tail3 : List Char → Option (List Char × List Char)
  | [] => none
  | c :: rest =>
    match step3 (c :: rest) with
    | some v => some v
    | none => if c = '\n' then none else tail3 rest

/-- One attempt of `Edge covered count: (\d+)` followed by the rest of the
pattern, at the current position. -/
def step2 (s : List Char) : Option (List Char × List Char × List Char) :=
  match litMatch countLit s with
  | some r =>
    let run := r.takeWhile Char.isDigit
    if run.isEmpty then none
    else (tail3 (r.drop run.length)).map (fun p => (run, p.1, p.2))
  | none => none

/-- `.*?Edge covered count: (\d+)` then the rest of the pattern.  As for
`tail3`, the digit group always captures its maximal run. -/
def tail2 : List Char → Option (List Char × List Char × List Char)
  | [] => none
  | c :: rest =>
    match step2 (c :: rest) with
    | some v => some v
    | none => if c = '\n' then none else tail2 rest

/-- Greedy backtracking of the UUID group `([a-f0-9\-]+)`: try the prefix of
`run` of length `n`, longest first (the following text of the pattern starts
with `e`, which IS in the class, so shorter captures can succeed where the
maximal one fails). -/
def tryGroup1 (run afterRun : List Char) : Nat → Option ScenGroups
  | 0 => none
  | n + 1 =>
    match tail2 (run.drop (n + 1) ++ afterRun) with
    | some (cnt, cov, st) => some ⟨run.take (n + 1), cnt, cov, st⟩
    | none => tryGroup1 run afterRun n

/-- One attempt of `UUID: ([a-f0-9\-]+)` followed by the rest of the
pattern, at the current position. -/
def step1 (s : List Char) : Option ScenGroups :=
  match litMatch uuidLit s with
  | some r =>
    let run := r.takeWhile uuidClass
    if run.isEmpty then none else tryGroup1 run (r.drop run.length) run.length
  | none => none

/-- `.*?UUID: ([a-f0-9\-]+)` then the rest of the pattern. -/
def tail1 : List Char → Option ScenGroups
  | [] => none
  | c :: rest =>
    match step1 (c :: rest) with
    | some g => some g
    | none => if c = '\n' then none else tail1 rest

/-- `re.search`: try the pattern at every start position, leftmost first
(the pattern begins with the marker literal). -/
def searchScenario : List Char → Option ScenGroups
  | [] => none
  | c :: rest =>
    match litMatch markerLit (c :: rest) with
    | some r =>
      match tail1 r with
      | some g => some g
      | none => searchScenario rest
    | none => searchScenario rest

/-- Whether Python's `float()` accepts a non-empty string drawn from the
class `[0-9\.]`: it must contain at least one digit and at most one dot
(so `"1.2.3"` and `"."` are rejected, `"1."`, `".5"`, `"42"` accepted). -/
def parseFloatOk (cs : List Char) : Bool :=
  cs.count '.' ≤ 1 && cs.any Char.isDigit

/-- Decimal digits to a natural number (`int(...)` on a `\d+` capture). -/
def digitsToNat (cs : List Char) : Nat :=
  cs.foldl (fun n c => 10 * n + (c.toNat - '0'.toNat)) 0

/-- The value of `float(...)` on a capture accepted by `parseFloatOk`,
modelled as an exact rational (the double rounding of the interpreter is
immaterial to the claims below, which never compare coverage values): the
digits before the dot are the integer part, the digits after it the
fractional part. -/
def ratOfCoverage (cs : List Char) : ℚ :=
  let intPart := cs.takeWhile (fun c => c ≠ '.')
  let frac := (cs.dropWhile (fun c => c ≠ '.')).drop 1
  mkRat (digitsToNat intPart * 10 ^ frac.length + digitsToNat frac) (10 ^ frac.length)

/-- One parsed scenario record (the tuple appended on line 47). -/
structure ScenarioRecord where
  uuid : List Char
  edge_covered_count : Nat
  edge_coverage : ℚ
  status_code_count : Nat
deriving DecidableEq

/-- Conversion of the four captures into the stored tuple. -/
def mkRecord (g : ScenGroups) : ScenarioRecord :=
  ⟨g.uuid, digitsToNat g.count, ratOfCoverage g.coverage, digitsToNat g.status⟩

/-- `extract_test_scenarios` (lines 33-49).  A line that does not match the
pattern is skipped; a matching line whose coverage capture `float()` rejects
raises `ValueError`, which aborts the whole call (nothing is returned). -/
def extract_test_scenarios : List (List Char) → Except FieldError (List ScenarioRecord)
  | [] => .ok []
  | l :: rest =>
    match searchScenario l with
    | none => extract_test_scenarios rest
    | some g =>
      if parseFloatOk g.coverage then
        match extract_test_scenarios rest with
        | .ok rs => .ok (mkRecord g :: rs)
        | .error e => .error e
      else .error .fieldError

/-- The record produced by a single line, when one is produced. -/
def lineRecord (l : List Char) : Option ScenarioRecord :=
  (searchScenario l).map mkRecord

/-- Whether a line is harmless: either it does not match the pattern, or its
coverage capture is accepted by `float()`. -/
def coverageOk (l : List Char) : Bool :=
  match searchScenario l with
  | some g => parseFloatOk g.coverage
  | none => true

/-- The three aligned series built in `plot_graphs` (lines 53-56), with the
1-based x axis. -/
structure TrendSeries where
  x : List Nat
  edge_covered_counts : List Nat
  edge_coverages : List ℚ
  status_code_counts : List Nat
deriving DecidableEq

/-- The columnar projection of `plot_graphs` lines 53-56. -/
def trendSeries (td : List ScenarioRecord) : TrendSeries :=
  ⟨List.range' 1 td.length,
   td.map ScenarioRecord.edge_covered_count,
   td.map ScenarioRecord.edge_coverage,
   td.map ScenarioRecord.status_code_count⟩

/-- The observable outcome of `main` (lines 92-99): either the series handed
to the plotting collaborator, or the `"No relevant logs found."` branch. -/
inductive MainOutcome where
  | plotted (s : TrendSeries)
  | noData
deriving DecidableEq

/-- The pure core of `main` (lines 92-99): extract, then branch on the
truthiness of `test_data`. -/
def mainProcess (logs : List (List Char)) : Except FieldError MainOutcome :=
  match extract_test_scenarios logs with
  | .error e => .error e
  | .ok td => if td.isEmpty then .ok .noData else .ok (.plotted (trendSeries td))

/-! ## Data model of `CoSREST/convert_sisp_to_dict.py` -/

/-- One element of an entry's `valid` list.  The code reads only
`valid.get('category')` (possibly absent) and `valid.get('samples', [])`. -/
structure ValidItem where
  category : Option String
  samples : List String
deriving DecidableEq

/-- One entry of the top-level list: `entry.get('param_name')` and
`entry.get('valid', [])`. -/
structure SispEntry where
  param_name : Option String
  valid : List ValidItem
deriving DecidableEq

/-- One output record `{"name": param_name, "value": samples[0]}`. -/
structure FuzzDictItem where
  name : Option String
  value : String
deriving DecidableEq

/-- The inner loop of `extract_valid_samples` (lines 47-56): walk the
`valid` list with the per-entry `seen_categories` set, appending the first
sample of each first-seen category that has a non-empty `samples` list. -/
def goValids (p : Option String) :
    List ValidItem → List (Option String) → List FuzzDictItem → List FuzzDictItem
  | [], _, out => out
  | v :: vs, seen, out =>
    match v.samples with
    | [] => goValids p vs seen out
    | s :: _ =>
      if v.category ∈ seen then goValids p vs seen out
      else goValids p vs (v.category :: seen) (out ++ [⟨p, s⟩])

/-- The outer loop over entries; `seen_categories` is re-created for each
entry, the output list persists across entries. -/
def processEntries : List SispEntry → List FuzzDictItem → List FuzzDictItem
  | [], out => out
  | e :: rest, out => processEntries rest (goValids e.param_name e.valid [] out)

/-- The `TypeError` the interpreter raises when the key comparison of
`sorted` meets a `None` (`None < str` and `None < None` both raise). -/
inductive SortError where
  | typeError
deriving DecidableEq

/-- Strict comparison of the (string) sort keys. -/
def nameLt (a b : String) : Bool :=
  decide (a < b)

/-- Stable insertion: the inserted element goes in front of every element
whose key is not strictly smaller, so elements with equal keys keep their
original relative order. -/
def insertByName (x : FuzzDictItem) : List FuzzDictItem → List FuzzDictItem
  | [] => [x]
  | y :: ys =>
    if nameLt (y.name.getD "") (x.name.getD "") then y :: insertByName x ys
    else x :: y :: ys

/-- The stable string-key sort: it yields the interpreter's stable `sorted`
output whenever every key is a string (the only situation in which
`sortByName` below applies it to a multi-element list). -/
def sortedByName : List FuzzDictItem → List FuzzDictItem
  | [] => []
  | x :: xs => insertByName x (sortedByName xs)

/-- `sorted(output, key=lambda x: x['name'])` on line 59.  On a list of at
least two items every item takes part in at least one key comparison, so a
single `None` key raises `TypeError`; on shorter lists no comparison runs
and the list is returned unchanged (which is also what the sort yields). -/
def sortByName (l : List FuzzDictItem) : Except SortError (List FuzzDictItem) :=
  if 2 ≤ l.length ∧ l.any (fun x => x.name.isNone) then .error .typeError
  else .ok (sortedByName l)

/-- `extract_valid_samples` (lines 36-62), on the decoded input list. -/
def extract_valid_samples (data : List SispEntry) :
    Except SortError (List FuzzDictItem) :=
  sortByName (processEntries data [])

/-! ## Helper lemmas about the snapshot dictionary -/

theorem lookupEdge_nil (k : EdgeKey) : lookupEdge [] k = none := rfl

theorem lookupEdge_isSome_iff (m : Snapshot) (k : EdgeKey) :
    (lookupEdge m k).isSome ↔ k ∈ snapshotKeys m := by
  unfold lookupEdge snapshotKeys
  constructor
  · intro h
    obtain ⟨p, hp⟩ := Option.isSome_iff_exists.mp h
    obtain ⟨q, hq, hqd⟩ := Option.map_eq_some'.mp hp
    have hmem := List.mem_of_find?_eq_some hq
    have hkey := List.find?_some hq
    simp only [decide_eq_true_eq] at hkey
    exact List.mem_map.mpr ⟨q, hmem, hkey⟩
  · intro hk
    obtain ⟨p, hp, hpk⟩ := List.mem_map.mp hk
    have hs : (m.find? (fun p => decide (p.1 = k))).isSome :=
      List.find?_isSome.mpr ⟨p, hp, by simp [hpk]⟩
    obtain ⟨q, hq⟩ := Option.isSome_iff_exists.mp hs
    simp [hq]

theorem lookupEdge_eq_none_iff (m : Snapshot) (k : EdgeKey) :
    lookupEdge m k = none ↔ k ∉ snapshotKeys m := by
  rw [← lookupEdge_isSome_iff, Option.eq_none_iff_forall_not_mem]
  cases lookupEdge m k <;> simp

theorem lookupEdge_mem (m : Snapshot) (k : EdgeKey) (d : EdgeDetail)
    (h : lookupEdge m k = some d) : (k, d) ∈ m := by
  unfold lookupEdge at h
  obtain ⟨p, hp, hpd⟩ := Option.map_eq_some'.mp h
  have hmem := List.mem_of_find?_eq_some hp
  have hkey := List.find?_some hp
  simp only [decide_eq_true_eq] at hkey
  obtain ⟨p1, p2⟩ := p
  simp only at hkey hpd
  subst hkey; subst hpd; exact hmem

theorem mem_keys_of_lookup (m : Snapshot) (k : EdgeKey) (d : EdgeDetail)
    (h : lookupEdge m k = some d) : k ∈ snapshotKeys m := by
  rw [← lookupEdge_isSome_iff, h]; rfl

theorem lookupEdge_map_replace (k : EdgeKey) (v : EdgeDetail) :
    ∀ m : Snapshot, (∃ q ∈ m, q.1 = k) →
      lookupEdge (m.map (fun p => if p.1 = k then (k, v) else p)) k = some v := by
  intro m
  induction m with
  | nil => rintro ⟨q, hq, -⟩; exact absurd hq (List.not_mem_nil q)
  | cons q qs ih =>
    rintro ⟨q', hq', hq'k⟩
    by_cases hq : q.1 = k
    · simp [lookupEdge, hq, List.find?_cons]
    · have : q' ∈ qs := by
        rcases List.mem_cons.mp hq' with h | h
        · exact absurd (h ▸ hq'k) hq
        · exact h
      have := ih ⟨q', this, hq'k⟩
      simpa [lookupEdge, hq, List.find?_cons] using this

theorem lookupEdge_append_single (k : EdgeKey) (v : EdgeDetail) :
    ∀ m : Snapshot, (∀ q ∈ m, q.1 ≠ k) →
      lookupEdge (m ++ [(k, v)]) k = some v := by
  intro m
  induction m with
  | nil => intro; simp [lookupEdge, List.find?_cons]
  | cons q qs ih =>
    intro h
    have hq : q.1 ≠ k := h q (List.mem_cons_self q qs)
    have := ih (fun q' hq' => h q' (List.mem_cons_of_mem q hq'))
    simpa [lookupEdge, hq, List.find?_cons] using this

theorem lookupEdge_dictInsert_self (m : Snapshot) (k : EdgeKey) (v : EdgeDetail) :
    lookupEdge (dictInsert m k v) k = some v := by
  unfold dictInsert
  by_cases hany : m.any (fun p => decide (p.1 = k)) = true
  · rw [if_pos hany]
    refine lookupEdge_map_replace k v m ?_
    simpa using hany
  · rw [if_neg hany]
    refine lookupEdge_append_single k v m ?_
    intro q hq
    simp only [List.any_eq_true, decide_eq_true_eq] at hany
    exact fun hk => hany ⟨q, hq, hk⟩

theorem lookupEdge_map_replace_ne (k' : EdgeKey) (v : EdgeDetail) (k : EdgeKey)
    (hne : k' ≠ k) :
    ∀ m : Snapshot,
      lookupEdge (m.map (fun p => if p.1 = k' then (k', v) else p)) k = lookupEdge m k := by
  intro m
  induction m with
  | nil => rfl
  | cons q qs ih =>
    by_cases hq : q.1 = k'
    · have hqk : ¬ q.1 = k := fun h => hne (hq ▸ h)
      simpa [lookupEdge, hq, hne, List.find?_cons, hqk] using ih
    · by_cases hqk : q.1 = k
      · simp [lookupEdge, hq, List.find?_cons, hqk, Ne.symm hne]
      · simpa [lookupEdge, hq, List.find?_cons, hqk] using ih

theorem lookupEdge_append_single_ne (k' : EdgeKey) (v : EdgeDetail) (k : EdgeKey)
    (hne : k' ≠ k) :
    ∀ m : Snapshot, lookupEdge (m ++ [(k', v)]) k = lookupEdge m k := by
  intro m
  induction m with
  | nil => simp [lookupEdge, List.find?_cons, hne]
  | cons q qs ih =>
    by_cases hqk : q.1 = k
    · simp [lookupEdge, List.find?_cons, hqk]
    · simpa [lookupEdge, List.find?_cons, hqk] using ih

theorem lookupEdge_dictInsert_ne (m : Snapshot) (k' : EdgeKey) (v : EdgeDetail)
    (k : EdgeKey) (hne : k' ≠ k) :
    lookupEdge (dictInsert m k' v) k = lookupEdge m k := by
  unfold dictInsert
  by_cases hany : m.any (fun p => decide (p.1 = k')) = true
  · rw [if_pos hany]; exact lookupEdge_map_replace_ne k' v k hne m
  · rw [if_neg hany]; exact lookupEdge_append_single_ne k' v k hne m

theorem mem_dictInsert (m : Snapshot) (k : EdgeKey) (v : EdgeDetail)
    (p : EdgeKey × EdgeDetail) (h : p ∈ dictInsert m k v) : p = (k, v) ∨ p ∈ m := by
  unfold dictInsert at h
  by_cases hany : m.any (fun p => decide (p.1 = k)) = true
  · rw [if_pos hany] at h
    obtain ⟨q, hq, hqp⟩ := List.mem_map.mp h
    by_cases hqk : q.1 = k
    · left; rw [← hqp]; simp [hqk]
    · right; rw [← hqp]; simpa [hqk] using hq
  · rw [if_neg hany] at h
    rcases List.mem_append.mp h with h | h
    · right; exact h
    · left; simpa using h

/-! ## Helper lemmas about `load_edges` -/

/-- Whether a raw record passes the hit-count filter and carries the key `k`. -/
def coveredMatch (k : EdgeKey) (e : RawEdge) : Bool :=
  decide (0 < hitOf e) && decide ((keyDetailOf e).map Prod.fst = some k)

/-- The last raw record that passed the per-entry hit-count filter and has
key `k` — the occurrence whose detail a dict insertion sequence keeps. -/
def lastCovered (es : List RawEdge) (k : EdgeKey) : Option RawEdge :=
  (es.filter (coveredMatch k)).getLast?

theorem getLast?_cons_getD {α : Type} (a : α) (l : List α) :
    (a :: l).getLast? = some (l.getLast?.getD a) := by
  induction l generalizing a with
  | nil => rfl
  | cons b bs ih =>
    rw [List.getLast?_cons_cons, ih b]
    simp

theorem loadGo_ok_mem (es : List RawEdge) :
    ∀ acc m, loadGo es acc = .ok m → ∀ p, p ∈ m →
      p ∈ acc ∨ ∃ e, e ∈ es ∧ 0 < hitOf e ∧ keyDetailOf e = some p := by
  induction es with
  | nil =>
    intro acc m h p hp
    left
    obtain rfl : acc = m := by simpa [loadGo] using h
    exact hp
  | cons e rest ih =>
    intro acc m h p hp
    by_cases hhit : 0 < hitOf e
    · rw [loadGo, if_pos hhit] at h
      cases hkd : keyDetailOf e with
      | none => rw [hkd] at h; exact absurd h (by simp)
      | some q =>
        rw [hkd] at h
        rcases ih _ _ h p hp with hacc | ⟨e', he', hh', hk'⟩
        · rcases mem_dictInsert _ _ _ _ hacc with hpq | hpm
          · right
            refine ⟨e, List.mem_cons_self e rest, hhit, ?_⟩
            rw [hkd, hpq]
          · left; exact hpm
        · right; exact ⟨e', List.mem_cons_of_mem e he', hh', hk'⟩
    · rw [loadGo, if_neg hhit] at h
      rcases ih _ _ h p hp with hacc | ⟨e', he', hh', hk'⟩
      · left; exact hacc
      · right; exact ⟨e', List.mem_cons_of_mem e he', hh', hk'⟩

theorem loadGo_error_iff (es : List RawEdge) :
    ∀ acc, (∃ err, loadGo es acc = .error err) ↔
      ∃ e, e ∈ es ∧ 0 < hitOf e ∧ keyDetailOf e = none := by
  induction es with
  | nil => intro acc; simp [loadGo]
  | cons e rest ih =>
    intro acc
    by_cases hhit : 0 < hitOf e
    · cases hkd : keyDetailOf e with
      | none =>
        constructor
        · intro _; exact ⟨e, List.mem_cons_self e rest, hhit, hkd⟩
        · intro _; exact ⟨.fieldError, by rw [loadGo, if_pos hhit, hkd]⟩
      | some q =>
        simp only [loadGo, if_pos hhit, hkd]
        rw [ih]
        constructor
        · rintro ⟨e', he', hh', hn'⟩
          exact ⟨e', List.mem_cons_of_mem e he', hh', hn'⟩
        · rintro ⟨e', he', hh', hn'⟩
          rcases List.mem_cons.mp he' with rfl | he'
          · rw [hkd] at hn'; cases hn'
          · exact ⟨e', he', hh', hn'⟩
    · simp only [loadGo, if_neg hhit]
      rw [ih]
      constructor
      · rintro ⟨e', he', hh', hn'⟩
        exact ⟨e', List.mem_cons_of_mem e he', hh', hn'⟩
      · rintro ⟨e', he', hh', hn'⟩
        rcases List.mem_cons.mp he' with rfl | he'
        · exact absurd hh' hhit
        · exact ⟨e', he', hh', hn'⟩

theorem loadGo_lookup (es : List RawEdge) :
    ∀ acc m k, loadGo es acc = .ok m →
      lookupEdge m k =
        match lastCovered es k with
        | some e => (keyDetailOf e).map Prod.snd
        | none => lookupEdge acc k := by
  induction es with
  | nil =>
    intro acc m k h
    obtain rfl : acc = m := by simpa [loadGo] using h
    rfl
  | cons e rest ih =>
    intro acc m k h
    by_cases hhit : 0 < hitOf e
    · rw [loadGo, if_pos hhit] at h
      cases hkd : keyDetailOf e with
      | none => rw [hkd] at h; exact absurd h (by simp)
      | some q =>
        obtain ⟨k', d⟩ := q
        rw [hkd] at h
        have ihm := ih _ _ k h
        by_cases hkk : k' = k
        · subst hkk
          have hcm : coveredMatch k' e = true := by
            simp [coveredMatch, hhit, hkd]
          rw [lastCovered, List.filter_cons, if_pos hcm, getLast?_cons_getD]
          cases hlast : lastCovered rest k' with
          | some e' =>
            rw [hlast] at ihm
            rw [lastCovered] at hlast
            rw [hlast]
            simpa using ihm
          | none =>
            rw [hlast] at ihm
            rw [lastCovered] at hlast
            rw [hlast]
            simp only [Option.getD_none]
            rw [ihm, lookupEdge_dictInsert_self, hkd]
            rfl
        · have hcm : coveredMatch k e = false := by
            simp only [coveredMatch, hkd]
            simp [hkk]
          rw [lastCovered, List.filter_cons, if_neg (by simp [hcm])]
          rw [← lastCovered]
          cases hlast : lastCovered rest k with
          | some e' => rw [hlast] at ihm; rw [ihm]
          | none =>
            rw [hlast] at ihm
            rw [ihm, lookupEdge_dictInsert_ne _ _ _ _ hkk]
    · rw [loadGo, if_neg hhit] at h
      have ihm := ih _ _ k h
      have hcm : coveredMatch k e = false := by
        simp [coveredMatch, hhit]
      rw [lastCovered, List.filter_cons, if_neg (by simp [hcm]), ← lastCovered]
      exact ihm

theorem load_edges_lookup (es : List RawEdge) (m : Snapshot) (k : EdgeKey)
    (h : load_edges es = .ok m) :
    lookupEdge m k = (lastCovered es k).bind (fun e => (keyDetailOf e).map Prod.snd) := by
  have := loadGo_lookup es [] m k h
  cases hlast : lastCovered es k with
  | some e => rw [hlast] at this; rw [this]; rfl
  | none => rw [hlast] at this; rw [this]; rfl

theorem mem_diff_filterMap (ord : List EdgeKey → List EdgeKey)
    (hord : ∀ l, (ord l).Perm l) (a b : Snapshot) (d : EdgeDetail) :
    d ∈ (ord (diffKeys a b)).filterMap (lookupEdge a) ↔
      ∃ k, lookupEdge a k = some d ∧ lookupEdge b k = none := by
  rw [List.mem_filterMap]
  constructor
  · rintro ⟨k, hk, hlk⟩
    have hk' : k ∈ diffKeys a b := (hord _).mem_iff.mp hk
    rw [diffKeys, List.mem_filter] at hk'
    obtain ⟨-, hnb⟩ := hk'
    refine ⟨k, hlk, ?_⟩
    rw [lookupEdge_eq_none_iff]
    simpa using hnb
  · rintro ⟨k, hla, hlb⟩
    refine ⟨k, ?_, hla⟩
    rw [(hord _).mem_iff, diffKeys, List.mem_filter]
    refine ⟨mem_keys_of_lookup a k d hla, ?_⟩
    simpa using (lookupEdge_eq_none_iff b k).mp hlb

/-! ## Concrete report data (the spec's own scenario, §8) -/

def nodeS1a : ServiceNode := ⟨some "S1", some ⟨some "/a", some "GET"⟩, []⟩
def nodeS2b : ServiceNode := ⟨some "S2", some ⟨some "/b", some "POST"⟩, []⟩
def nodeS3d : ServiceNode := ⟨some "S3", some ⟨some "/d", some "GET"⟩, []⟩
def nodeS1c : ServiceNode := ⟨some "S1", some ⟨some "/c", some "GET"⟩, []⟩

def k12 : EdgeKey := ⟨"S1", "/a", "GET", "S2", "/b", "POST"⟩
def k23 : EdgeKey := ⟨"S2", "/b", "POST", "S3", "/d", "GET"⟩

def report1 : List RawEdge :=
  [⟨some 3, some nodeS1a, some nodeS2b⟩, ⟨some 0, some nodeS1c, some nodeS3d⟩]
def report2 : List RawEdge :=
  [⟨some 1, some nodeS1a, some nodeS2b⟩, ⟨some 2, some nodeS2b, some nodeS3d⟩]

def snap1 : Snapshot := [(k12, (nodeS1a, nodeS2b))]
def snap2 : Snapshot := [(k12, (nodeS1a, nodeS2b)), (k23, (nodeS2b, nodeS3d))]
def onlyB : List EdgeDetail := [(nodeS2b, nodeS3d)]

/-- A report with two covered edges, so that its diff against an empty
report has a two-element key set. -/
def reportPair : List RawEdge :=
  [⟨some 3, some nodeS1a, some nodeS2b⟩, ⟨some 2, some nodeS2b, some nodeS3d⟩]
def snapPair : Snapshot := [(k12, (nodeS1a, nodeS2b)), (k23, (nodeS2b, nodeS3d))]

/-- A report with three records of the same key: covered with one detail,
covered again with another detail, then an uncovered late duplicate. -/
def nodeS1aX : ServiceNode := ⟨some "S1", some ⟨some "/a", some "GET"⟩, [("note", "v2")]⟩
def dupReport : List RawEdge :=
  [⟨some 2, some nodeS1a, some nodeS2b⟩,
   ⟨some 5, some nodeS1aX, some nodeS2b⟩,
   ⟨some 0, some nodeS1a, some nodeS2b⟩]
def dupSnap : Snapshot := [(k12, (nodeS1aX, nodeS2b))]

/-! ## Claims about the coverage diff -/

/-- C1 counterexample: the two output lists are produced by iterating the
difference *sets*; two runs whose set iteration orders are both valid
permutations of the same difference produce different (not byte-identical)
output lists, so the ordering does not follow a fixed total order over
`EdgeKey`. -/
theorem compare_order_determinism_cex :
    load_edges reportPair = .ok snapPair ∧
    diffKeys snapPair [] = [k12, k23] ∧
    compare_coverage (fun l => l) reportPair [] =
      .ok ([(nodeS1a, nodeS2b), (nodeS2b, nodeS3d)], []) ∧
    compare_coverage List.reverse reportPair [] =
      .ok ([(nodeS2b, nodeS3d), (nodeS1a, nodeS2b)], []) ∧
    (List.reverse [k12, k23]).Perm [k12, k23] ∧
    ([(nodeS1a, nodeS2b), (nodeS2b, nodeS3d)] : List EdgeDetail) ≠
      [(nodeS2b, nodeS3d), (nodeS1a, nodeS2b)] :=
  ⟨rfl, rfl, rfl, rfl, List.reverse_perm _, by decide⟩

/-- C1 amended: for any two valid set-iteration orders, the diff outputs on
identical inputs agree up to permutation (they are equal as sets, but their
element order depends on the runtime's set iteration order). -/
theorem compare_deterministic_up_to_permutation
    (ord1 ord2 : List EdgeKey → List EdgeKey)
    (ho1 : ∀ l, (ord1 l).Perm l) (ho2 : ∀ l, (ord2 l).Perm l)
    (es1 es2 : List RawEdge) (r1 r2 s1 s2 : List EdgeDetail)
    (hc1 : compare_coverage ord1 es1 es2 = .ok (r1, r2))
    (hc2 : compare_coverage ord2 es1 es2 = .ok (s1, s2)) :
    r1.Perm s1 ∧ r2.Perm s2 := by
  cases hl1 : load_edges es1 with
  | error err => simp [compare_coverage, hl1] at hc1
  | ok m1 =>
    cases hl2 : load_edges es2 with
    | error err => simp [compare_coverage, hl1, hl2] at hc1
    | ok m2 =>
      simp only [compare_coverage, hl1, hl2, Except.ok.injEq, Prod.mk.injEq] at hc1 hc2
      obtain ⟨hA1, hB1⟩ := hc1
      obtain ⟨hA2, hB2⟩ := hc2
      subst hA1; subst hB1; subst hA2; subst hB2
      exact ⟨((ho1 _).trans (ho2 _).symm).filterMap _,
             ((ho1 _).trans (ho2 _).symm).filterMap _⟩

theorem compare_deterministic_up_to_permutation_witness :
    ([(nodeS1a, nodeS2b), (nodeS2b, nodeS3d)] : List EdgeDetail).Perm
      [(nodeS2b, nodeS3d), (nodeS1a, nodeS2b)] ∧
    ([] : List EdgeDetail).Perm [] :=
  compare_deterministic_up_to_permutation (fun l => l) List.reverse
    (fun l => List.Perm.refl l) (fun l => List.reverse_perm l)
    reportPair [] [(nodeS1a, nodeS2b), (nodeS2b, nodeS3d)] []
    [(nodeS2b, nodeS3d), (nodeS1a, nodeS2b)] [] rfl rfl

/-- C2: for any valid set-iteration order, the first output list holds
exactly the details of the keys covered in the first snapshot and not in the
second (each detail read from the first snapshot), and symmetrically for the
second list; membership is decided solely by `EdgeKey` equality. -/
theorem compare_exact_set_difference (ord : List EdgeKey → List EdgeKey)
    (hord : ∀ l, (ord l).Perm l) (es1 es2 : List RawEdge) (m1 m2 : Snapshot)
    (r1 r2 : List EdgeDetail)
    (h1 : load_edges es1 = .ok m1) (h2 : load_edges es2 = .ok m2)
    (hc : compare_coverage ord es1 es2 = .ok (r1, r2)) :
    (∀ d, d ∈ r1 ↔ ∃ k, lookupEdge m1 k = some d ∧ lookupEdge m2 k = none) ∧
    (∀ d, d ∈ r2 ↔ ∃ k, lookupEdge m2 k = some d ∧ lookupEdge m1 k = none) := by
  simp only [compare_coverage, h1, h2, Except.ok.injEq, Prod.mk.injEq] at hc
  obtain ⟨hA, hB⟩ := hc
  subst hA; subst hB
  exact ⟨fun d => mem_diff_filterMap ord hord m1 m2 d,
         fun d => mem_diff_filterMap ord hord m2 m1 d⟩

theorem compare_exact_set_difference_witness :
    (nodeS2b, nodeS3d) ∈ onlyB :=
  ((compare_exact_set_difference (fun l => l) (fun l => List.Perm.refl l)
      report1 report2 snap1 snap2 [] onlyB rfl rfl rfl).2
    (nodeS2b, nodeS3d)).mpr ⟨k23, rfl, rfl⟩

/-- C4: every entry of a loaded snapshot, and hence every detail of either
diff output list, comes from a raw record whose effective hit count
(`hitCount`, defaulting to 0 when absent) is strictly positive; records with
hit count 0, negative, or absent never appear. -/
theorem snapshot_only_covered_records (es1 es2 : List RawEdge)
    (ord : List EdgeKey → List EdgeKey) (m1 : Snapshot)
    (r1 r2 : List EdgeDetail)
    (h1 : load_edges es1 = .ok m1)
    (hc : compare_coverage ord es1 es2 = .ok (r1, r2)) :
    (∀ k d, (k, d) ∈ m1 → ∃ e, e ∈ es1 ∧ 0 < hitOf e ∧ keyDetailOf e = some (k, d)) ∧
    (∀ d, d ∈ r1 → ∃ e, e ∈ es1 ∧ 0 < hitOf e ∧ ∃ k, keyDetailOf e = some (k, d)) ∧
    (∀ d, d ∈ r2 → ∃ e, e ∈ es2 ∧ 0 < hitOf e ∧ ∃ k, keyDetailOf e = some (k, d)) := by
  cases hl2 : load_edges es2 with
  | error err => simp [compare_coverage, h1, hl2] at hc
  | ok m2 =>
    have hmem1 : ∀ p, p ∈ m1 → ∃ e, e ∈ es1 ∧ 0 < hitOf e ∧ keyDetailOf e = some p := by
      intro p hp
      rcases loadGo_ok_mem es1 [] m1 h1 p hp with hnil | h
      · exact absurd hnil (List.not_mem_nil p)
      · exact h
    have hmem2 : ∀ p, p ∈ m2 → ∃ e, e ∈ es2 ∧ 0 < hitOf e ∧ keyDetailOf e = some p := by
      intro p hp
      rcases loadGo_ok_mem es2 [] m2 hl2 p hp with hnil | h
      · exact absurd hnil (List.not_mem_nil p)
      · exact h
    simp only [compare_coverage, h1, hl2, Except.ok.injEq, Prod.mk.injEq] at hc
    obtain ⟨hA, hB⟩ := hc
    subst hA; subst hB
    refine ⟨fun k d hkd => hmem1 (k, d) hkd, fun d hd => ?_, fun d hd => ?_⟩
    · obtain ⟨k, -, hlk⟩ := List.mem_filterMap.mp hd
      obtain ⟨e, he, hh, hkd⟩ := hmem1 (k, d) (lookupEdge_mem m1 k d hlk)
      exact ⟨e, he, hh, k, hkd⟩
    · obtain ⟨k, -, hlk⟩ := List.mem_filterMap.mp hd
      obtain ⟨e, he, hh, hkd⟩ := hmem2 (k, d) (lookupEdge_mem m2 k d hlk)
      exact ⟨e, he, hh, k, hkd⟩

theorem snapshot_only_covered_records_witness :
    ∃ e, e ∈ report1 ∧ 0 < hitOf e ∧ keyDetailOf e = some (k12, (nodeS1a, nodeS2b)) :=
  (snapshot_only_covered_records report1 report2 (fun l => l) snap1 [] onlyB
      rfl rfl).1 k12 (nodeS1a, nodeS2b) (by decide)

/-- C5: a loaded snapshot maps each key to the detail of the last raw
occurrence that passed the per-entry hit-count filter; uncovered duplicates
are filtered out before insertion and so never replace an earlier covered
occurrence. -/
theorem snapshot_last_write_wins (es : List RawEdge) (m : Snapshot) (k : EdgeKey)
    (h : load_edges es = .ok m) :
    lookupEdge m k = (lastCovered es k).bind (fun e => (keyDetailOf e).map Prod.snd) := by
  have := loadGo_lookup es [] m k h
  cases hlast : lastCovered es k with
  | some e => rw [hlast] at this; rw [this]; rfl
  | none => rw [hlast] at this; rw [this]; rfl

theorem snapshot_last_write_wins_witness :
    lookupEdge dupSnap k12 =
      (lastCovered dupReport k12).bind (fun e => (keyDetailOf e).map Prod.snd) ∧
    lookupEdge dupSnap k12 = some (nodeS1aX, nodeS2b) :=
  ⟨snapshot_last_write_wins dupReport dupSnap k12 rfl, rfl⟩

/-- C7: loading raises a `FieldError` exactly when some record with positive
effective hit count is missing an identity field; a record that fails the
hit-count filter is never inspected, so its missing fields never raise. -/
theorem load_edges_fielderror_iff (es : List RawEdge) :
    (∃ err, load_edges es = .error err) ↔
      ∃ e, e ∈ es ∧ 0 < hitOf e ∧ keyDetailOf e = none :=
  loadGo_error_iff es []

/-- C8: when the two snapshots have the same key set (in particular when the
two inputs are the same report), both output lists are present and empty. -/
theorem compare_identical_empty (ord : List EdgeKey → List EdgeKey)
    (hord : ∀ l, (ord l).Perm l) (es1 es2 : List RawEdge) (m1 m2 : Snapshot)
    (h1 : load_edges es1 = .ok m1) (h2 : load_edges es2 = .ok m2)
    (hk : ∀ k, k ∈ snapshotKeys m1 ↔ k ∈ snapshotKeys m2) :
    compare_coverage ord es1 es2 = .ok ([], []) := by
  have hd1 : diffKeys m1 m2 = [] := by
    rw [diffKeys, List.filter_eq_nil_iff]
    intro k hkm
    simp [(hk k).mp hkm]
  have hd2 : diffKeys m2 m1 = [] := by
    rw [diffKeys, List.filter_eq_nil_iff]
    intro k hkm
    simp [(hk k).mpr hkm]
  have ho1 : ord (diffKeys m1 m2) = [] := by rw [hd1]; exact (hord []).eq_nil
  have ho2 : ord (diffKeys m2 m1) = [] := by rw [hd2]; exact (hord []).eq_nil
  simp only [compare_coverage, h1, h2, ho1, ho2, List.filterMap_nil]

theorem compare_identical_empty_witness :
    compare_coverage (fun l => l) report1 report1 = .ok ([], []) :=
  compare_identical_empty (fun l => l) (fun l => List.Perm.refl l)
    report1 report1 snap1 snap1 rfl rfl (fun _ => Iff.rfl)

/-! ## Concrete log lines -/

def logGoodA : List Char :=
  "2025/01/01 12:00:00 INFO Finish execute current test scenario , UUID: aa11-bb, Edge covered count: 42, Edge coverage: 0.75, covered status code count: 5\n".data
def logGoodB : List Char :=
  "Finish execute current test scenario , UUID: cc22-dd, Edge covered count: 7, Edge coverage: 0.5, covered status code count: 3\n".data
def logNoise : List Char :=
  "2025/01/01 12:00:01 INFO sending http request to service S1\n".data
def logPoisonA : List Char :=
  "Finish execute current test scenario , UUID: ee33-ff, Edge covered count: 9, Edge coverage: 1.2.3, covered status code count: 4\n".data
def logPoisonB : List Char :=
  "Finish execute current test scenario , UUID: ab44-cd, Edge covered count: 8, Edge coverage: ..., covered status code count: 2\n".data

def logsMix : List (List Char) := [logGoodA, logNoise, logGoodB]
def recGoodA : ScenarioRecord := ⟨"aa11-bb".data, 42, mkRat 3 4, 5⟩
def recGoodB : ScenarioRecord := ⟨"cc22-dd".data, 7, mkRat 1 2, 3⟩

/-! ## Claims about the scenario-log parser -/

/-- C3 counterexample: a line whose labeled fields are present but whose
coverage text `1.2.3` is not `float()`-parsable makes the whole parse raise,
so the later well-formed matching line yields no record at all. -/
theorem parser_abort_cex :
    searchScenario logPoisonA =
      some ⟨"ee33-ff".data, "9".data, "1.2.3".data, "4".data⟩ ∧
    parseFloatOk "1.2.3".data = false ∧
    searchScenario logGoodB =
      some ⟨"cc22-dd".data, "7".data, "0.5".data, "3".data⟩ ∧
    parseFloatOk "0.5".data = true ∧
    extract_test_scenarios [logPoisonA, logGoodB] = .error .fieldError :=
  ⟨rfl, rfl, rfl, rfl, rfl⟩

/-- C3 amended: a line whose numeric text breaks the pattern's shape does
not match and is skipped without aborting; but a matching line whose
coverage capture `float()` rejects aborts the whole parse with an error. -/
theorem parser_skip_or_abort :
    (∀ (pre post : List (List Char)) (l : List Char), searchScenario l = none →
      extract_test_scenarios (pre ++ l :: post) = extract_test_scenarios (pre ++ post)) ∧
    (∀ (post : List (List Char)) (l : List Char) (g : ScenGroups),
      searchScenario l = some g → parseFloatOk g.coverage = false →
      extract_test_scenarios (l :: post) = .error .fieldError) := by
  constructor
  · intro pre post l hnone
    induction pre with
    | nil => simp [extract_test_scenarios, hnone]
    | cons p ps ih =>
      cases hs : searchScenario p with
      | none => simp only [List.cons_append, extract_test_scenarios, hs]; exact ih
      | some g =>
        by_cases hok : parseFloatOk g.coverage = true
        · simp only [List.cons_append, extract_test_scenarios, hs, hok, if_true]
          exact congrArg
            (fun r => match r with
              | Except.ok rs => Except.ok (mkRecord g :: rs)
              | Except.error e => Except.error e) ih
        · simp only [List.cons_append, extract_test_scenarios, hs, hok]
          simp
  · intro post l g hs hok
    simp [extract_test_scenarios, hs, hok]

theorem parser_skip_or_abort_witness :
    extract_test_scenarios [logNoise, logGoodB] = extract_test_scenarios [logGoodB] ∧
    extract_test_scenarios [logPoisonB] = .error .fieldError :=
  ⟨parser_skip_or_abort.1 [] [logGoodB] logNoise rfl,
   parser_skip_or_abort.2 [] logPoisonB
     ⟨"ab44-cd".data, "8".data, "...".data, "2".data⟩ rfl rfl⟩

/-- C6 counterexample: a log whose matching lines surround one matching line
with a `float()`-rejected coverage capture makes the parser raise instead of
returning one record per matching line. -/
theorem parser_order_cex :
    searchScenario logGoodA =
      some ⟨"aa11-bb".data, "42".data, "0.75".data, "5".data⟩ ∧
    searchScenario logGoodB =
      some ⟨"cc22-dd".data, "7".data, "0.5".data, "3".data⟩ ∧
    extract_test_scenarios [logGoodA, logPoisonA, logGoodB] = .error .fieldError :=
  ⟨rfl, rfl, rfl⟩

/-- C6 amended: provided no line matches the pattern with a coverage capture
that `float()` rejects, the parser returns exactly one record per matching
line, in input order, and silently discards every non-matching line. -/
theorem parser_order_preservation (logs : List (List Char))
    (h : ∀ l ∈ logs, coverageOk l = true) :
    extract_test_scenarios logs = .ok (logs.filterMap lineRecord) := by
  induction logs with
  | nil => rfl
  | cons l rest ih =>
    have hl := h l (List.mem_cons_self l rest)
    have hrest := ih (fun x hx => h x (List.mem_cons_of_mem l hx))
    cases hs : searchScenario l with
    | none =>
      have hlr : lineRecord l = none := by rw [lineRecord, hs]; rfl
      simp [extract_test_scenarios, hs, hrest, hlr]
    | some g =>
      have hok : parseFloatOk g.coverage = true := by
        rw [coverageOk, hs] at hl; exact hl
      have hlr : lineRecord l = some (mkRecord g) := by rw [lineRecord, hs]; rfl
      simp [extract_test_scenarios, hs, hok, hrest, hlr]

theorem parser_order_preservation_witness :
    extract_test_scenarios logsMix = .ok [recGoodA, recGoodB] :=
  (parser_order_preservation logsMix (by decide)).trans (by decide)

/-- C9: when the extracted record sequence is empty, `main` takes the
explicit no-data branch instead of building a zero-length trend series. -/
theorem main_empty_no_data (logs : List (List Char))
    (h : extract_test_scenarios logs = .ok []) :
    mainProcess logs = .ok .noData := by
  simp [mainProcess, h]

theorem main_empty_no_data_witness :
    mainProcess [logNoise] = .ok .noData :=
  main_empty_no_data [logNoise] rfl

/-! ## Claims about the valid-sample extractor -/

theorem goValids_extends (p : Option String) :
    ∀ (vs : List ValidItem) (seen : List (Option String)) (out : List FuzzDictItem),
      ∃ t, goValids p vs seen out = out ++ t := by
  intro vs
  induction vs with
  | nil => intro seen out; exact ⟨[], by simp [goValids]⟩
  | cons v vs ih =>
    intro seen out
    cases hsm : v.samples with
    | nil => simpa [goValids, hsm] using ih seen out
    | cons s ss =>
      by_cases hc : v.category ∈ seen
      · simpa [goValids, hsm, hc] using ih seen out
      · obtain ⟨t, ht⟩ := ih (v.category :: seen) (out ++ [⟨p, s⟩])
        refine ⟨⟨p, s⟩ :: t, ?_⟩
        simp only [goValids, hsm, hc, if_neg]
        rw [ht, List.append_assoc]
        rfl

theorem processEntries_extends :
    ∀ (es : List SispEntry) (out : List FuzzDictItem),
      ∃ t, processEntries es out = out ++ t := by
  intro es
  induction es with
  | nil => intro out; exact ⟨[], by simp [processEntries]⟩
  | cons e rest ih =>
    intro out
    obtain ⟨t1, ht1⟩ := goValids_extends e.param_name e.valid [] out
    obtain ⟨t2, ht2⟩ := ih (goValids e.param_name e.valid [] out)
    exact ⟨t1 ++ t2, by rw [processEntries, ht2, ht1, List.append_assoc]⟩

theorem mem_insertByName (x y : FuzzDictItem) :
    ∀ l, (x ∈ insertByName y l ↔ x = y ∨ x ∈ l) := by
  intro l
  induction l with
  | nil => simp [insertByName]
  | cons z zs ih =>
    by_cases hz : nameLt (z.name.getD "") (y.name.getD "") = true
    · simp only [insertByName, hz, if_true, List.mem_cons, ih]
      tauto
    · simp only [insertByName]
      rw [if_neg hz]
      simp only [List.mem_cons]

theorem mem_sortedByName (x : FuzzDictItem) :
    ∀ l, x ∈ sortedByName l ↔ x ∈ l := by
  intro l
  induction l with
  | nil => simp [sortedByName]
  | cons y ys ih =>
    simp [sortedByName, mem_insertByName, ih]

/-- C10: a `valid` item with an empty (or absent) `samples` list is skipped
without marking its category as seen, so a later same-category item with a
non-empty `samples` list still contributes its first sample to whatever
output list the extractor returns. -/
theorem valid_sampler_skip_empty :
    (∀ (p : Option String) (v : ValidItem) (vs : List ValidItem)
        (seen : List (Option String)) (out : List FuzzDictItem),
      v.samples = [] → goValids p (v :: vs) seen out = goValids p vs seen out) ∧
    (∀ (p c : Option String) (s : String) (t : List String)
        (vs : List ValidItem) (rest : List SispEntry) (out : List FuzzDictItem),
      extract_valid_samples (⟨p, ⟨c, []⟩ :: ⟨c, s :: t⟩ :: vs⟩ :: rest) = .ok out →
      (⟨p, s⟩ : FuzzDictItem) ∈ out) := by
  constructor
  · intro p v vs seen out hempty
    simp [goValids, hempty]
  · intro p c s t vs rest out hok
    have h1 : goValids p (⟨c, []⟩ :: ⟨c, s :: t⟩ :: vs) [] [] =
        goValids p vs [c] [⟨p, s⟩] := by
      simp [goValids]
    obtain ⟨t1, ht1⟩ := goValids_extends p vs [c] [⟨p, s⟩]
    obtain ⟨t2, ht2⟩ := processEntries_extends rest (goValids p vs [c] [⟨p, s⟩])
    have hmem : (⟨p, s⟩ : FuzzDictItem) ∈
        processEntries (⟨p, ⟨c, []⟩ :: ⟨c, s :: t⟩ :: vs⟩ :: rest) [] := by
      simp only [processEntries]
      rw [h1, ht2, ht1]
      simp
    rw [extract_valid_samples, sortByName] at hok
    split at hok
    · cases hok
    · obtain rfl : sortedByName (processEntries
          (⟨p, ⟨c, []⟩ :: ⟨c, s :: t⟩ :: vs⟩ :: rest) []) = out := by
        injection hok
      exact (mem_sortedByName _ _).mpr hmem

theorem valid_sampler_skip_empty_witness :
    goValids (some "orderId") [⟨some "uuid", []⟩] [] [] =
      goValids (some "orderId") [] [] [] ∧
    extract_valid_samples
        [⟨some "orderId", [⟨some "uuid", []⟩, ⟨some "uuid", ["abc-123-def", "z9"]⟩]⟩] =
      .ok [⟨some "orderId", "abc-123-def"⟩] ∧
    (⟨some "orderId", "abc-123-def"⟩ : FuzzDictItem) ∈
      [(⟨some "orderId", "abc-123-def"⟩ : FuzzDictItem)] :=
  ⟨valid_sampler_skip_empty.1 (some "orderId") ⟨some "uuid", []⟩ [] [] [] rfl,
   rfl,
   valid_sampler_skip_empty.2 (some "orderId") (some "uuid") "abc-123-def" ["z9"] [] []
     [⟨some "orderId", "abc-123-def"⟩] rfl⟩

end RestTraceFuzzer
